import Mathlib

/-!
Verification development for the XAE repository (`XAE/model.py`).

Tensors of shape `(batch, features)` are embedded as functions `ℕ → ℕ → ℝ`
(row index, column index) together with explicit size parameters; torch
reductions become `Finset.range` sums.  Python `float` arithmetic is modelled
by real arithmetic.  Each class of `model.py` gets a namespace holding the
translations of its methods.
-/

noncomputable section

open Finset

/-- Entry `[i][j]` of `(x.unsqueeze(0) - y.unsqueeze(1)).pow(2).sum(dim=2)`:
the squared distance between row `j` of `x` and row `i` of `y`, with `d`
feature columns. -/
def sqdist (d : ℕ) (x y : ℕ → ℕ → ℝ) (i j : ℕ) : ℝ :=
  ∑ t ∈ Finset.range d, (x j t - y i t) ^ 2

/-- Sum of all entries of an `m × n` matrix (`Tensor.sum()`). -/
def matSum (m n : ℕ) (M : ℕ → ℕ → ℝ) : ℝ :=
  ∑ i ∈ Finset.range m, ∑ j ∈ Finset.range n, M i j

/-- Sum of the main diagonal of an `m × n` matrix (`Tensor.diag().sum()`),
which in torch has `min m n` entries. -/
def diagSum (m n : ℕ) (M : ℕ → ℕ → ℝ) : ℝ :=
  ∑ i ∈ Finset.range (min m n), M i i

/-- Matrix transposition, `Tensor.transpose(0, 1)`. -/
def transposeFn (M : ℕ → ℕ → ℝ) : ℕ → ℕ → ℝ :=
  fun i j => M j i

/-- Mean of all entries of an `m × n` matrix (`Tensor.mean()`). -/
def meanMat (m n : ℕ) (M : ℕ → ℕ → ℝ) : ℝ :=
  matSum m n M / (m * n : ℕ)

/-- Row `i` of `Tensor.mean(dim=1)` for a matrix with `n` columns. -/
def meanRow (n : ℕ) (M : ℕ → ℕ → ℝ) (i : ℕ) : ℝ :=
  (∑ j ∈ Finset.range n, M i j) / n

/-- Mean of a length-`n` vector (`Tensor.mean()` on one dimension). -/
def meanVec (n : ℕ) (v : ℕ → ℝ) : ℝ :=
  (∑ i ∈ Finset.range n, v i) / n

/-- Lower clamp, `Tensor.clamp(min=c)`. -/
def clampMin (v c : ℝ) : ℝ :=
  max v c

/-- The list of kernel scales `[.1, .2, .5, 1., 2., 5., 10.]` used by every
`k` method in `model.py`. -/
def mmdScales : List ℝ :=
  [0.1, 0.2, 0.5, 1.0, 2.0, 5.0, 10.0]

namespace WAE_MMD_abstract

/-- `WAE_MMD_abstract.k(x, y, diag)`: the loop `stat = 0.0; for scale in
[...]: C = scale*2*self.z_dim*2; kernel = C/(C + sqdist); stat += kernel.sum()`
(minus the diagonal sum when `diag` is false).  `x` has `nx` rows and `y` has
`ny` rows, both with `d` feature columns; the broadcasted kernel matrix is
`ny × nx`. -/
def k (z_dim nx ny d : ℕ) (x y : ℕ → ℕ → ℝ) (diag : Bool) : ℝ :=
  List.foldl
    (fun stat scale =>
      let C : ℝ := scale * 2 * (z_dim : ℝ) * 2
      let kernel : ℕ → ℕ → ℝ := fun i j => C / (C + sqdist d x y i j)
      stat + (if diag then matSum ny nx kernel
              else matSum ny nx kernel - diagSum ny nx kernel))
    0 mmdScales

/-- `WAE_MMD_abstract.penalty_loss(x, y, n)` where both batches have `n` rows
and `d` feature columns. -/
def penalty_loss (z_dim d : ℕ) (x y : ℕ → ℕ → ℝ) (n : ℕ) : ℝ :=
  (k z_dim n n d x x false + k z_dim n n d y y false) / ((n : ℝ) * ((n : ℝ) - 1))
    - 2 * k z_dim n n d x y true / ((n : ℝ) * (n : ℝ))

end WAE_MMD_abstract

namespace CWAE_MMD_abstract

/-- `CWAE_MMD_abstract.k`, a textual duplicate of `WAE_MMD_abstract.k`. -/
def k (z_dim nx ny d : ℕ) (x y : ℕ → ℕ → ℝ) (diag : Bool) : ℝ :=
  List.foldl
    (fun stat scale =>
      let C : ℝ := scale * 2 * (z_dim : ℝ) * 2
      let kernel : ℕ → ℕ → ℝ := fun i j => C / (C + sqdist d x y i j)
      stat + (if diag then matSum ny nx kernel
              else matSum ny nx kernel - diagSum ny nx kernel))
    0 mmdScales

/-- `CWAE_MMD_abstract.penalty_loss`, a textual duplicate of
`WAE_MMD_abstract.penalty_loss`. -/
def penalty_loss (z_dim d : ℕ) (x y : ℕ → ℕ → ℝ) (n : ℕ) : ℝ :=
  (k z_dim n n d x x false + k z_dim n n d y y false) / ((n : ℝ) * ((n : ℝ) - 1))
    - 2 * k z_dim n n d x y true / ((n : ℝ) * (n : ℝ))

end CWAE_MMD_abstract

/-- Per-scale summand of `WAE_MMD_abstract.k`, for restating the loop as a
sum over the scale list. -/
def kScaleTerm (z_dim nx ny d : ℕ) (x y : ℕ → ℕ → ℝ) (diag : Bool) (scale : ℝ) : ℝ :=
  let C : ℝ := scale * 2 * (z_dim : ℝ) * 2
  let kernel : ℕ → ℕ → ℝ := fun i j => C / (C + sqdist d x y i j)
  if diag then matSum ny nx kernel else matSum ny nx kernel - diagSum ny nx kernel

/-- Specification-side kernel statistic, written exactly as the spec claim
phrases it: the sum over the seven scales of the entrywise
inverse-multiquadratic kernel `C / (C + ‖a i - b j‖²)` with
`C = scale * 2 * z_dim * 2`, over all index pairs when `diag` is true and with
the diagonal pairs excluded when `diag` is false. -/
def kSpecFormula (z_dim n d : ℕ) (a b : ℕ → ℕ → ℝ) (diag : Bool) : ℝ :=
  (mmdScales.map (fun scale =>
    let C : ℝ := scale * 2 * (z_dim : ℝ) * 2
    if diag then
      ∑ i ∈ Finset.range n, ∑ j ∈ Finset.range n,
        C / (C + ∑ t ∈ Finset.range d, (a i t - b j t) ^ 2)
    else
      ∑ i ∈ Finset.range n, ∑ j ∈ Finset.range n,
        if i = j then 0
        else C / (C + ∑ t ∈ Finset.range d, (a i t - b j t) ^ 2))).sum

lemma foldl_add_map (g : ℝ → ℝ) :
    ∀ (l : List ℝ) (a : ℝ),
      List.foldl (fun s c => s + g c) a l = a + (l.map g).sum
  | [], a => by simp
  | c :: l, a => by
      simp only [List.foldl, List.map, List.sum_cons]
      rw [foldl_add_map g l (a + g c)]
      ring

lemma map_sum_congr (l : List ℝ) (f g : ℝ → ℝ) (h : ∀ c ∈ l, f c = g c) :
    (l.map f).sum = (l.map g).sum := by
  induction l with
  | nil => simp
  | cons c l ih =>
      simp only [List.map, List.sum_cons]
      rw [h c (List.mem_cons_self c l), ih (fun c hc => h c (List.mem_cons_of_mem _ hc))]

lemma WAE_MMD_abstract.k_eq_sum (z_dim nx ny d : ℕ) (x y : ℕ → ℕ → ℝ) (diag : Bool) :
    WAE_MMD_abstract.k z_dim nx ny d x y diag
      = (mmdScales.map (kScaleTerm z_dim nx ny d x y diag)).sum := by
  have h := foldl_add_map (kScaleTerm z_dim nx ny d x y diag) mmdScales 0
  rw [zero_add] at h
  exact h

lemma sum_sub_diag (n : ℕ) (M : ℕ → ℕ → ℝ) :
    (∑ i ∈ Finset.range n, ∑ j ∈ Finset.range n, M i j) - (∑ i ∈ Finset.range n, M i i)
      = ∑ i ∈ Finset.range n, ∑ j ∈ Finset.range n, if i = j then 0 else M i j := by
  rw [← Finset.sum_sub_distrib]
  refine Finset.sum_congr rfl fun i hi => ?_
  have h1 : ∀ j ∈ Finset.range n, (if i = j then (0:ℝ) else M i j)
      = M i j - (if i = j then M i j else 0) := by
    intro j _
    by_cases h : i = j <;> simp [h]
  rw [Finset.sum_congr rfl h1, Finset.sum_sub_distrib, Finset.sum_ite_eq, if_pos hi]

lemma kScaleTerm_true (z n d : ℕ) (x y : ℕ → ℕ → ℝ) (scale : ℝ) :
    kScaleTerm z n n d x y true scale
      = ∑ i ∈ Finset.range n, ∑ j ∈ Finset.range n,
          (scale * 2 * (z:ℝ) * 2)
            / ((scale * 2 * (z:ℝ) * 2) + ∑ t ∈ Finset.range d, (x i t - y j t) ^ 2) := by
  show matSum n n _ = _
  simp only [matSum]
  rw [Finset.sum_comm]
  simp only [sqdist]

lemma kScaleTerm_false (z n d : ℕ) (x y : ℕ → ℕ → ℝ) (scale : ℝ) :
    kScaleTerm z n n d x y false scale
      = ∑ i ∈ Finset.range n, ∑ j ∈ Finset.range n,
          if i = j then 0
          else (scale * 2 * (z:ℝ) * 2)
            / ((scale * 2 * (z:ℝ) * 2) + ∑ t ∈ Finset.range d, (x i t - y j t) ^ 2) := by
  have hm : matSum n n (fun i j =>
        (scale * 2 * (z:ℝ) * 2) / ((scale * 2 * (z:ℝ) * 2) + sqdist d x y i j))
      = ∑ i ∈ Finset.range n, ∑ j ∈ Finset.range n,
          (scale * 2 * (z:ℝ) * 2) / ((scale * 2 * (z:ℝ) * 2) + sqdist d x y j i) := by
    simp only [matSum]
    exact Finset.sum_comm
  have hdg : diagSum n n (fun i j =>
        (scale * 2 * (z:ℝ) * 2) / ((scale * 2 * (z:ℝ) * 2) + sqdist d x y i j))
      = ∑ i ∈ Finset.range n,
          (scale * 2 * (z:ℝ) * 2) / ((scale * 2 * (z:ℝ) * 2) + sqdist d x y i i) := by
    simp only [diagSum, Nat.min_self]
  have key := sum_sub_diag n (fun i j =>
    (scale * 2 * (z:ℝ) * 2) / ((scale * 2 * (z:ℝ) * 2) + sqdist d x y j i))
  show matSum n n _ - diagSum n n _ = _
  rw [hm, hdg, key]
  simp only [sqdist]

lemma k_eq_kSpecFormula (z n d : ℕ) (x y : ℕ → ℕ → ℝ) (diag : Bool) :
    WAE_MMD_abstract.k z n n d x y diag = kSpecFormula z n d x y diag := by
  rw [WAE_MMD_abstract.k_eq_sum, kSpecFormula]
  cases diag with
  | false => exact map_sum_congr _ _ _ (fun c _ => kScaleTerm_false z n d x y c)
  | true => exact map_sum_congr _ _ _ (fun c _ => kScaleTerm_true z n d x y c)

/-- C3: for batches `x` and `y` of `n ≥ 2` rows, `WAE_MMD_abstract.penalty_loss(x, y, n)`
equals `(k(x,x,False) + k(y,y,False)) / (n*(n-1)) - 2*k(x,y,True) / (n*n)` where
`k(a,b,diag)` is the sum over the seven scales of the entrywise
inverse-multiquadratic kernel `C / (C + ‖a_i - b_j‖²)` with `C = scale*2*z_dim*2`,
summed over all entries when `diag` is true and with the diagonal excluded when
`diag` is false. -/
theorem C3_mmd_penalty_formula (z_dim d n : ℕ) (x y : ℕ → ℕ → ℝ) (hn : 2 ≤ n) :
    WAE_MMD_abstract.penalty_loss z_dim d x y n
      = (kSpecFormula z_dim n d x x false + kSpecFormula z_dim n d y y false)
          / ((n:ℝ) * ((n:ℝ) - 1))
        - 2 * kSpecFormula z_dim n d x y true / ((n:ℝ) * (n:ℝ)) := by
  simp only [WAE_MMD_abstract.penalty_loss, k_eq_kSpecFormula]

/-- Witness for C3 at the concrete input `z_dim = 1`, `d = 1`, `n = 2`,
`x = 0`, `y = 1`. -/
theorem C3_mmd_penalty_formula_witness :
    WAE_MMD_abstract.penalty_loss 1 1 (fun _ _ => 0) (fun _ _ => 1) 2
      = (kSpecFormula 1 2 1 (fun _ _ => 0) (fun _ _ => 0) false
          + kSpecFormula 1 2 1 (fun _ _ => 1) (fun _ _ => 1) false)
          / ((2:ℝ) * ((2:ℝ) - 1))
        - 2 * kSpecFormula 1 2 1 (fun _ _ => 0) (fun _ _ => 1) true / ((2:ℝ) * (2:ℝ)) :=
  C3_mmd_penalty_formula 1 1 2 (fun _ _ => 0) (fun _ _ => 1) (by decide)

namespace SSWAE_HSIC_dev

/-- `SSWAE_HSIC_dev.k`, the same scale loop as `WAE_MMD_abstract.k` but with
`C = scale*2*self.y_dim*2`. -/
def k (y_dim nx ny d : ℕ) (x y : ℕ → ℕ → ℝ) (diag : Bool) : ℝ :=
  List.foldl
    (fun stat scale =>
      let C : ℝ := scale * 2 * (y_dim : ℝ) * 2
      let kernel : ℕ → ℕ → ℝ := fun i j => C / (C + sqdist d x y i j)
      stat + (if diag then matSum ny nx kernel
              else matSum ny nx kernel - diagSum ny nx kernel))
    0 mmdScales

/-- `SSWAE_HSIC_dev.bandwidth(d)`: `gz = 2*gamma(0.5*(d+1))/gamma(0.5*d);
1./(2.*gz**2)`. -/
def bandwidth (d : ℕ) : ℝ :=
  let gz := 2 * Real.Gamma (0.5 * ((d : ℝ) + 1)) / Real.Gamma (0.5 * (d : ℝ))
  1.0 / (2.0 * gz ^ 2)

/-- `SSWAE_HSIC_dev.knl(x, y, gam)`: the Gaussian kernel matrix
`(-gam * dist_table).exp().transpose(0, 1)` where `dist_table` is the
broadcasted squared-distance table. -/
def knl (d : ℕ) (x y : ℕ → ℕ → ℝ) (gam : ℝ) : ℕ → ℕ → ℝ :=
  transposeFn (fun i j => Real.exp (-gam * sqdist d x y i j))

/-- The biased HSIC estimate `res` computed inside `SSWAE_HSIC_dev.hsic`,
before clamping; `nb` is the shared batch size, `dx`, `dy` the feature
dimensions of `x` and `y`. -/
def hsicRes (nb dx dy : ℕ) (x y : ℕ → ℕ → ℝ) : ℝ :=
  let xx := knl dx x x (bandwidth dx)
  let yy := knl dy y y (bandwidth dy)
  meanMat nb nb (fun i j => xx i j * yy i j) + meanMat nb nb xx * meanMat nb nb yy
    - 2 * meanVec nb (fun i => meanRow nb xx i * meanRow nb yy i)

/-- `SSWAE_HSIC_dev.hsic(x, y)`: `res.clamp(min=1e-16).sqrt()`. -/
def hsic (nb dx dy : ℕ) (x y : ℕ → ℕ → ℝ) : ℝ :=
  Real.sqrt (clampMin (hsicRes nb dx dy x y) 1e-16)

/-- `SSWAE_HSIC_dev.penalty_loss(q, prior_y, n)`, returning the
`(gan, mmd, hsic)` triple.  `q` has `dq` columns, of which the first `y_dim`
are the label part (`q[:, 0:y_dim]`) and the rest the latent part
(`q[:, y_dim:]`).  The discriminator and its loss are the inherited
`self.discriminate` / `self.disc_loss` (with `torch.ones_like`), passed as
parameters. -/
def penalty_loss {τ : Type} (y_dim dq n : ℕ)
    (discriminate : (ℕ → ℕ → ℝ) → τ) (disc_loss : τ → τ → ℝ) (ones_like : τ → τ)
    (q prior_y : ℕ → ℕ → ℝ) : ℝ × ℝ × ℝ :=
  let x := q
  let y := prior_y
  let mmd := (k y_dim n n y_dim x x false + k y_dim n n y_dim y y false)
      / ((n : ℝ) * ((n : ℝ) - 1))
    - 2 * k y_dim n n y_dim x y true / ((n : ℝ) * (n : ℝ))
  let z := fun i t => q i (y_dim + t)
  let qz := discriminate z
  let gan := disc_loss qz (ones_like qz)
  let hsic_val := hsic n y_dim (dq - y_dim) x z
  (gan, mmd, hsic_val)

end SSWAE_HSIC_dev

namespace SSWAE_HSIC_dev2

/-- `SSWAE_HSIC_dev2.k`, a textual duplicate of `SSWAE_HSIC_dev.k`. -/
def k (y_dim nx ny d : ℕ) (x y : ℕ → ℕ → ℝ) (diag : Bool) : ℝ :=
  List.foldl
    (fun stat scale =>
      let C : ℝ := scale * 2 * (y_dim : ℝ) * 2
      let kernel : ℕ → ℕ → ℝ := fun i j => C / (C + sqdist d x y i j)
      stat + (if diag then matSum ny nx kernel
              else matSum ny nx kernel - diagSum ny nx kernel))
    0 mmdScales

/-- `SSWAE_HSIC_dev2.bandwidth`, a textual duplicate. -/
def bandwidth (d : ℕ) : ℝ :=
  let gz := 2 * Real.Gamma (0.5 * ((d : ℝ) + 1)) / Real.Gamma (0.5 * (d : ℝ))
  1.0 / (2.0 * gz ^ 2)

/-- `SSWAE_HSIC_dev2.knl`, a textual duplicate. -/
def knl (d : ℕ) (x y : ℕ → ℕ → ℝ) (gam : ℝ) : ℕ → ℕ → ℝ :=
  transposeFn (fun i j => Real.exp (-gam * sqdist d x y i j))

/-- The biased HSIC estimate inside `SSWAE_HSIC_dev2.hsic`, before clamping. -/
def hsicRes (nb dx dy : ℕ) (x y : ℕ → ℕ → ℝ) : ℝ :=
  let xx := knl dx x x (bandwidth dx)
  let yy := knl dy y y (bandwidth dy)
  meanMat nb nb (fun i j => xx i j * yy i j) + meanMat nb nb xx * meanMat nb nb yy
    - 2 * meanVec nb (fun i => meanRow nb xx i * meanRow nb yy i)

/-- `SSWAE_HSIC_dev2.hsic(x, y)`: `res.clamp(min=1e-16).sqrt()`. -/
def hsic (nb dx dy : ℕ) (x y : ℕ → ℕ → ℝ) : ℝ :=
  Real.sqrt (clampMin (hsicRes nb dx dy x y) 1e-16)

/-- `SSWAE_HSIC_dev2.penalty_loss(q, prior_y, n)`; identical to the `dev`
version except that `prior_y` is used inline instead of being bound to a
local `y` first. -/
def penalty_loss {τ : Type} (y_dim dq n : ℕ)
    (discriminate : (ℕ → ℕ → ℝ) → τ) (disc_loss : τ → τ → ℝ) (ones_like : τ → τ)
    (q prior_y : ℕ → ℕ → ℝ) : ℝ × ℝ × ℝ :=
  let x := q
  let mmd := (k y_dim n n y_dim x x false + k y_dim n n y_dim prior_y prior_y false)
      / ((n : ℝ) * ((n : ℝ) - 1))
    - 2 * k y_dim n n y_dim x prior_y true / ((n : ℝ) * (n : ℝ))
  let z := fun i t => q i (y_dim + t)
  let qz := discriminate z
  let gan := disc_loss qz (ones_like qz)
  let hsic_val := hsic n y_dim (dq - y_dim) x z
  (gan, mmd, hsic_val)

end SSWAE_HSIC_dev2

lemma sqdist_symm (d : ℕ) (x y : ℕ → ℕ → ℝ) (i j : ℕ) :
    sqdist d x y i j = sqdist d y x j i := by
  simp only [sqdist]
  exact Finset.sum_congr rfl fun t _ => by ring

lemma kScaleTerm_true_eq (z nx ny d : ℕ) (x y : ℕ → ℕ → ℝ) (c : ℝ) :
    kScaleTerm z nx ny d x y true c
      = matSum ny nx (fun i j =>
          (c * 2 * (z:ℝ) * 2) / ((c * 2 * (z:ℝ) * 2) + sqdist d x y i j)) := rfl

lemma kScaleTerm_false_eq (z nx ny d : ℕ) (x y : ℕ → ℕ → ℝ) (c : ℝ) :
    kScaleTerm z nx ny d x y false c
      = matSum ny nx (fun i j =>
          (c * 2 * (z:ℝ) * 2) / ((c * 2 * (z:ℝ) * 2) + sqdist d x y i j))
        - diagSum ny nx (fun i j =>
          (c * 2 * (z:ℝ) * 2) / ((c * 2 * (z:ℝ) * 2) + sqdist d x y i j)) := rfl

lemma matSum_kernel_symm (C : ℝ) (nx ny d : ℕ) (x y : ℕ → ℕ → ℝ) :
    matSum ny nx (fun i j => C / (C + sqdist d x y i j))
      = matSum nx ny (fun i j => C / (C + sqdist d y x i j)) := by
  simp only [matSum]
  rw [Finset.sum_comm]
  exact Finset.sum_congr rfl fun j _ => Finset.sum_congr rfl fun i _ => by
    rw [sqdist_symm]

lemma diagSum_kernel_symm (C : ℝ) (nx ny d : ℕ) (x y : ℕ → ℕ → ℝ) :
    diagSum ny nx (fun i j => C / (C + sqdist d x y i j))
      = diagSum nx ny (fun i j => C / (C + sqdist d y x i j)) := by
  simp only [diagSum, Nat.min_comm ny nx]
  exact Finset.sum_congr rfl fun i _ => by rw [sqdist_symm]

lemma WAE_MMD_abstract.k_symm (z nx ny d : ℕ) (x y : ℕ → ℕ → ℝ) (diag : Bool) :
    WAE_MMD_abstract.k z nx ny d x y diag = WAE_MMD_abstract.k z ny nx d y x diag := by
  rw [WAE_MMD_abstract.k_eq_sum, WAE_MMD_abstract.k_eq_sum]
  refine map_sum_congr _ _ _ fun c _ => ?_
  cases diag with
  | false =>
      rw [kScaleTerm_false_eq, kScaleTerm_false_eq, matSum_kernel_symm,
        diagSum_kernel_symm]
  | true =>
      rw [kScaleTerm_true_eq, kScaleTerm_true_eq, matSum_kernel_symm]

lemma SSWAE_HSIC_dev.knl_transpose (d : ℕ) (x y : ℕ → ℕ → ℝ) (gam : ℝ) :
    SSWAE_HSIC_dev.knl d x y gam = transposeFn (SSWAE_HSIC_dev.knl d y x gam) := by
  funext i j
  simp only [SSWAE_HSIC_dev.knl, transposeFn]
  rw [sqdist_symm]

lemma SSWAE_HSIC_dev.hsicRes_symm (nb dx dy : ℕ) (x y : ℕ → ℕ → ℝ) :
    SSWAE_HSIC_dev.hsicRes nb dx dy x y = SSWAE_HSIC_dev.hsicRes nb dy dx y x := by
  simp only [SSWAE_HSIC_dev.hsicRes]
  have h1 : ∀ A B : ℕ → ℕ → ℝ,
      meanMat nb nb (fun i j => A i j * B i j)
        = meanMat nb nb (fun i j => B i j * A i j) := by
    intro A B
    simp only [meanMat, matSum]
    congr 1
    exact Finset.sum_congr rfl fun i _ => Finset.sum_congr rfl fun j _ => mul_comm _ _
  have h2 : ∀ A B : ℕ → ℕ → ℝ,
      meanVec nb (fun i => meanRow nb A i * meanRow nb B i)
        = meanVec nb (fun i => meanRow nb B i * meanRow nb A i) := by
    intro A B
    simp only [meanVec]
    congr 1
    exact Finset.sum_congr rfl fun i _ => mul_comm _ _
  rw [h1, h2, mul_comm (meanMat nb nb (SSWAE_HSIC_dev.knl dx x x (SSWAE_HSIC_dev.bandwidth dx)))]

lemma SSWAE_HSIC_dev.hsic_symm (nb dx dy : ℕ) (x y : ℕ → ℕ → ℝ) :
    SSWAE_HSIC_dev.hsic nb dx dy x y = SSWAE_HSIC_dev.hsic nb dy dx y x := by
  simp only [SSWAE_HSIC_dev.hsic, SSWAE_HSIC_dev.hsicRes_symm nb dx dy x y]

/-- C8: `WAE_MMD_abstract.k(x, y, diag) = k(y, x, diag)` for every `diag`;
`SSWAE_HSIC_dev.knl(x, y, gam)` equals the transpose of `knl(y, x, gam)` for
every `gam`; consequently `SSWAE_HSIC_dev.hsic(x, y) = hsic(y, x)` for
non-empty batches of `nb` rows. -/
theorem C8_kernel_statistic_symmetry (z nx ny d nb dx dy : ℕ)
    (x y : ℕ → ℕ → ℝ) (hnb : 0 < nb) :
    (∀ diag, WAE_MMD_abstract.k z nx ny d x y diag
        = WAE_MMD_abstract.k z ny nx d y x diag)
    ∧ (∀ gam : ℝ, SSWAE_HSIC_dev.knl d x y gam
        = transposeFn (SSWAE_HSIC_dev.knl d y x gam))
    ∧ SSWAE_HSIC_dev.hsic nb dx dy x y = SSWAE_HSIC_dev.hsic nb dy dx y x :=
  ⟨fun diag => WAE_MMD_abstract.k_symm z nx ny d x y diag,
   fun gam => SSWAE_HSIC_dev.knl_transpose d x y gam,
   SSWAE_HSIC_dev.hsic_symm nb dx dy x y⟩

/-- Witness for C8 at batch size `1` and concrete constant batches. -/
theorem C8_kernel_statistic_symmetry_witness :
    (∀ diag, WAE_MMD_abstract.k 1 1 1 1 (fun _ _ => 0) (fun _ _ => 1) diag
        = WAE_MMD_abstract.k 1 1 1 1 (fun _ _ => 1) (fun _ _ => 0) diag)
    ∧ (∀ gam : ℝ, SSWAE_HSIC_dev.knl 1 (fun _ _ => 0) (fun _ _ => 1) gam
        = transposeFn (SSWAE_HSIC_dev.knl 1 (fun _ _ => 1) (fun _ _ => 0) gam))
    ∧ SSWAE_HSIC_dev.hsic 1 1 1 (fun _ _ => 0) (fun _ _ => 1)
        = SSWAE_HSIC_dev.hsic 1 1 1 (fun _ _ => 1) (fun _ _ => 0) :=
  C8_kernel_statistic_symmetry 1 1 1 1 1 1 1 (fun _ _ => 0) (fun _ _ => 1) (by decide)

/-- C10: the square-root argument inside `hsic` is clamped below at `1e-16`,
hence never negative, and the returned value is at least `1e-8`, in both
`SSWAE_HSIC_dev` and `SSWAE_HSIC_dev2`. -/
theorem C10_hsic_clamped (nb dx dy : ℕ) (x y : ℕ → ℕ → ℝ) (hnb : 0 < nb) :
    (1e-16 : ℝ) ≤ clampMin (SSWAE_HSIC_dev.hsicRes nb dx dy x y) 1e-16
    ∧ 0 ≤ clampMin (SSWAE_HSIC_dev.hsicRes nb dx dy x y) 1e-16
    ∧ (1e-8 : ℝ) ≤ SSWAE_HSIC_dev.hsic nb dx dy x y
    ∧ (1e-8 : ℝ) ≤ SSWAE_HSIC_dev2.hsic nb dx dy x y := by
  have hc : ∀ r : ℝ, (1e-16 : ℝ) ≤ clampMin r 1e-16 := fun r => le_max_right r _
  have hs : ∀ r : ℝ, (1e-8 : ℝ) ≤ Real.sqrt (clampMin r 1e-16) := by
    intro r
    have h1 : Real.sqrt (1e-16 : ℝ) ≤ Real.sqrt (clampMin r 1e-16) :=
      Real.sqrt_le_sqrt (hc r)
    have h2 : Real.sqrt (1e-16 : ℝ) = 1e-8 := by
      have he : (1e-16 : ℝ) = (1e-8 : ℝ) ^ 2 := by norm_num
      rw [he, Real.sqrt_sq (by norm_num : (0:ℝ) ≤ 1e-8)]
    rw [h2] at h1
    exact h1
  exact ⟨hc _, le_trans (by norm_num) (hc _), hs _, hs _⟩

/-- Witness for C10 at batch size `1` and zero batches. -/
theorem C10_hsic_clamped_witness :
    (1e-16 : ℝ) ≤ clampMin (SSWAE_HSIC_dev.hsicRes 1 1 1 (fun _ _ => 0) (fun _ _ => 0)) 1e-16
    ∧ 0 ≤ clampMin (SSWAE_HSIC_dev.hsicRes 1 1 1 (fun _ _ => 0) (fun _ _ => 0)) 1e-16
    ∧ (1e-8 : ℝ) ≤ SSWAE_HSIC_dev.hsic 1 1 1 (fun _ _ => 0) (fun _ _ => 0)
    ∧ (1e-8 : ℝ) ≤ SSWAE_HSIC_dev2.hsic 1 1 1 (fun _ _ => 0) (fun _ _ => 0) :=
  C10_hsic_clamped 1 1 1 (fun _ _ => 0) (fun _ _ => 0) (by decide)

/-- C7: the duplicated kernel and penalty code is extensionally equal across
model variants: `WAE_MMD_abstract.k = CWAE_MMD_abstract.k` and
`WAE_MMD_abstract.penalty_loss = CWAE_MMD_abstract.penalty_loss` for equal
`z_dim` and identical inputs, and `SSWAE_HSIC_dev.penalty_loss` equals
`SSWAE_HSIC_dev2.penalty_loss` on every input for equal `y_dim` and identical
discriminator and `disc_loss`. -/
theorem C7_duplicated_losses_equal :
    (∀ z nx ny d (x y : ℕ → ℕ → ℝ) diag,
        WAE_MMD_abstract.k z nx ny d x y diag = CWAE_MMD_abstract.k z nx ny d x y diag)
    ∧ (∀ z d (x y : ℕ → ℕ → ℝ) n,
        WAE_MMD_abstract.penalty_loss z d x y n = CWAE_MMD_abstract.penalty_loss z d x y n)
    ∧ (∀ (τ : Type) (y_dim dq n : ℕ) (discriminate : (ℕ → ℕ → ℝ) → τ)
        (disc_loss : τ → τ → ℝ) (ones_like : τ → τ) (q prior_y : ℕ → ℕ → ℝ),
        SSWAE_HSIC_dev.penalty_loss y_dim dq n discriminate disc_loss ones_like q prior_y
          = SSWAE_HSIC_dev2.penalty_loss y_dim dq n discriminate disc_loss ones_like q prior_y) :=
  ⟨fun _ _ _ _ _ _ _ => rfl, fun _ _ _ _ _ => rfl,
   fun _ _ _ _ _ _ _ _ _ => rfl⟩

namespace VAE_abstract

/-- `VAE_abstract.penalty_loss(mu, logvar)`:
`(-0.5 * (1 + logvar - mu**2 - logvar.exp()).sum(dim=1)).mean()` for a batch
with `n` rows and `d` latent columns. -/
def penalty_loss (n d : ℕ) (mu logvar : ℕ → ℕ → ℝ) : ℝ :=
  (∑ i ∈ Finset.range n,
    -0.5 * ∑ j ∈ Finset.range d,
      (1 + logvar i j - mu i j ^ 2 - Real.exp (logvar i j))) / n

end VAE_abstract

namespace CVAE_abstract

/-- `CVAE_abstract.penalty_loss`, a textual duplicate of
`VAE_abstract.penalty_loss`. -/
def penalty_loss (n d : ℕ) (mu logvar : ℕ → ℕ → ℝ) : ℝ :=
  (∑ i ∈ Finset.range n,
    -0.5 * ∑ j ∈ Finset.range d,
      (1 + logvar i j - mu i j ^ 2 - Real.exp (logvar i j))) / n

end CVAE_abstract

lemma exp_term_nonpos (m l : ℝ) : 1 + l - m ^ 2 - Real.exp l ≤ 0 := by
  have h := Real.add_one_le_exp l
  nlinarith [sq_nonneg m]

lemma exp_term_eq_zero_iff (m l : ℝ) :
    1 + l - m ^ 2 - Real.exp l = 0 ↔ m = 0 ∧ l = 0 := by
  constructor
  · intro h
    have h1 := Real.add_one_le_exp l
    have hm : m ^ 2 = 0 := by nlinarith
    have hm0 : m = 0 := sq_eq_zero_iff.mp hm
    have hl0 : l = 0 := by
      by_contra hne
      have h2 := Real.add_one_lt_exp hne
      nlinarith
    exact ⟨hm0, hl0⟩
  · rintro ⟨hm, hl⟩
    simp [hm, hl, Real.exp_zero]

/-- C9: the VAE KL penalty is non-negative for every `mu` and `logvar` over a
non-empty batch, and vanishes exactly when every entry of `mu` and of `logvar`
is zero; the identical `CVAE_abstract` definition agrees with it. -/
theorem C9_vae_kl_penalty_nonneg (n d : ℕ) (hn : 0 < n) (mu logvar : ℕ → ℕ → ℝ) :
    0 ≤ VAE_abstract.penalty_loss n d mu logvar
    ∧ (VAE_abstract.penalty_loss n d mu logvar = 0
        ↔ ∀ i ∈ Finset.range n, ∀ j ∈ Finset.range d, mu i j = 0 ∧ logvar i j = 0)
    ∧ CVAE_abstract.penalty_loss n d mu logvar = VAE_abstract.penalty_loss n d mu logvar := by
  have hterm : ∀ i j : ℕ, 1 + logvar i j - mu i j ^ 2 - Real.exp (logvar i j) ≤ 0 :=
    fun i j => exp_term_nonpos (mu i j) (logvar i j)
  have hfnn : ∀ i ∈ Finset.range n,
      0 ≤ -0.5 * ∑ j ∈ Finset.range d,
        (1 + logvar i j - mu i j ^ 2 - Real.exp (logvar i j)) := by
    intro i _
    have hrow : (∑ j ∈ Finset.range d,
        (1 + logvar i j - mu i j ^ 2 - Real.exp (logvar i j))) ≤ 0 :=
      Finset.sum_nonpos fun j _ => hterm i j
    nlinarith [hrow]
  have hsum : 0 ≤ ∑ i ∈ Finset.range n,
      -0.5 * ∑ j ∈ Finset.range d,
        (1 + logvar i j - mu i j ^ 2 - Real.exp (logvar i j)) :=
    Finset.sum_nonneg hfnn
  have hpl : VAE_abstract.penalty_loss n d mu logvar
      = (∑ i ∈ Finset.range n,
          -0.5 * ∑ j ∈ Finset.range d,
            (1 + logvar i j - mu i j ^ 2 - Real.exp (logvar i j))) / n := rfl
  have hnne : ((n : ℝ)) ≠ 0 := Nat.cast_ne_zero.mpr hn.ne'
  refine ⟨?_, ?_, rfl⟩
  · rw [hpl]
    exact div_nonneg hsum (Nat.cast_nonneg n)
  · rw [hpl, div_eq_zero_iff]
    constructor
    · rintro (h0 | h0)
      · intro i hi j hj
        have hfi := (Finset.sum_eq_zero_iff_of_nonneg hfnn).mp h0 i hi
        have hSi : (∑ j ∈ Finset.range d,
            (1 + logvar i j - mu i j ^ 2 - Real.exp (logvar i j))) = 0 := by
          rcases mul_eq_zero.mp hfi with hc | hS
          · norm_num at hc
          · exact hS
        have hz := (Finset.sum_eq_zero_iff_of_nonpos fun j _ => hterm i j).mp hSi j hj
        exact (exp_term_eq_zero_iff _ _).mp hz
      · exact absurd h0 hnne
    · intro h
      left
      apply Finset.sum_eq_zero
      intro i hi
      have hS0 : (∑ j ∈ Finset.range d,
          (1 + logvar i j - mu i j ^ 2 - Real.exp (logvar i j))) = 0 :=
        Finset.sum_eq_zero fun j hj => (exp_term_eq_zero_iff _ _).mpr (h i hi j hj)
      rw [hS0, mul_zero]

/-- Witness for C9 at `n = d = 1` with `mu = logvar = 0`. -/
theorem C9_vae_kl_penalty_nonneg_witness :
    0 ≤ VAE_abstract.penalty_loss 1 1 (fun _ _ => 0) (fun _ _ => 0)
    ∧ (VAE_abstract.penalty_loss 1 1 (fun _ _ => 0) (fun _ _ => 0) = 0
        ↔ ∀ i ∈ Finset.range 1, ∀ j ∈ Finset.range 1,
            (fun _ _ => (0:ℝ)) i j = 0 ∧ (fun _ _ => (0:ℝ)) i j = 0)
    ∧ CVAE_abstract.penalty_loss 1 1 (fun _ _ => 0) (fun _ _ => 0)
        = VAE_abstract.penalty_loss 1 1 (fun _ _ => 0) (fun _ _ => 0) :=
  C9_vae_kl_penalty_nonneg 1 1 (by decide) (fun _ _ => 0) (fun _ _ => 0)

/-- The epoch indices executed by `for epoch in range(start_epoch, self.num_epoch)`. -/
def epochRange (start_epoch num_epoch : ℕ) : List ℕ :=
  List.range' start_epoch (num_epoch - start_epoch)

/-- Value stored under the key `"epoch"` in the checkpoint dictionary written
at the end of the loop body for `epoch`: `save_dict = {'epoch': epoch + 1, ...}`. -/
def checkpoint_epoch_value (epoch : ℕ) : ℕ :=
  epoch + 1

/-- Loop start chosen on resume: `start_epoch = checkpoint['epoch']`. -/
def resume_start_epoch (stored : ℕ) : ℕ :=
  stored

/-- C1: a checkpoint written after completing epoch `e` stores `e + 1`; a
resumed run starts exactly at the stored value and iterates to
`num_epoch - 1`; the interrupted run's epochs (`0..e`) followed by the resumed
run's epochs recompose `0..num_epoch-1` without any epoch repeated. -/
theorem C1_checkpoint_resume_roundtrip (e num_epoch : ℕ) (h : e < num_epoch) :
    checkpoint_epoch_value e = e + 1
    ∧ epochRange (resume_start_epoch (checkpoint_epoch_value e)) num_epoch
        = List.range' (e + 1) (num_epoch - (e + 1))
    ∧ epochRange 0 (e + 1)
        ++ epochRange (resume_start_epoch (checkpoint_epoch_value e)) num_epoch
        = epochRange 0 num_epoch
    ∧ (epochRange 0 (e + 1)
        ++ epochRange (resume_start_epoch (checkpoint_epoch_value e)) num_epoch).Nodup := by
  have hres : resume_start_epoch (checkpoint_epoch_value e) = e + 1 := rfl
  have happ : epochRange 0 (e + 1) ++ epochRange (e + 1) num_epoch
      = epochRange 0 num_epoch := by
    simp only [epochRange, Nat.sub_zero]
    have h1 := List.range'_append_1 0 (e + 1) (num_epoch - (e + 1))
    simp only [Nat.zero_add] at h1
    rw [h1]
    congr 1
    omega
  refine ⟨rfl, rfl, ?_, ?_⟩
  · rw [hres, happ]
  · rw [hres, happ]
    simp only [epochRange, Nat.sub_zero]
    exact List.nodup_range' 0 num_epoch

/-- Witness for C1 at `e = 0`, `num_epoch = 2`. -/
theorem C1_checkpoint_resume_roundtrip_witness :
    checkpoint_epoch_value 0 = 0 + 1
    ∧ epochRange (resume_start_epoch (checkpoint_epoch_value 0)) 2
        = List.range' (0 + 1) (2 - (0 + 1))
    ∧ epochRange 0 (0 + 1)
        ++ epochRange (resume_start_epoch (checkpoint_epoch_value 0)) 2
        = epochRange 0 2
    ∧ (epochRange 0 (0 + 1)
        ++ epochRange (resume_start_epoch (checkpoint_epoch_value 0)) 2).Nodup :=
  C1_checkpoint_resume_roundtrip 0 2 (by decide)

/-- Keys of the checkpoint dictionary written by `classifier_abstract.train`. -/
def classifier_checkpoint_keys (lr_schedule : String) : List String :=
  ["epoch", "model_state_dict", "optimizer_state_dict"]
    ++ (if 0 < lr_schedule.length then ["scheduler"] else [])

/-- Keys of the checkpoint dictionary written by `VAE_abstract.train`
(identical to the classifier loop). -/
def vae_checkpoint_keys (lr_schedule : String) : List String :=
  ["epoch", "model_state_dict", "optimizer_state_dict"]
    ++ (if 0 < lr_schedule.length then ["scheduler"] else [])

/-- Keys of the checkpoint dictionary written by `SSWAE_HSIC_dev.train`. -/
def sswae_dev_checkpoint_keys (lr_schedule : String) : List String :=
  ["epoch", "model_state_dict", "optimizer_main_state_dict", "optimizer_adv_state_dict"]
    ++ (if 0 < lr_schedule.length then ["scheduler_main", "scheduler_adv"] else [])

/-- C6: the single-optimizer loops write exactly the keys `epoch`,
`model_state_dict`, `optimizer_state_dict` plus `scheduler` iff `lr_schedule`
is non-empty; the two-optimizer loop writes `epoch`, `model_state_dict`,
`optimizer_main_state_dict`, `optimizer_adv_state_dict` plus
`scheduler_main` and `scheduler_adv` iff `lr_schedule` is non-empty. -/
theorem C6_checkpoint_dict_format (lr : String) :
    (∀ s, s ∈ classifier_checkpoint_keys lr
        ↔ s = "epoch" ∨ s = "model_state_dict" ∨ s = "optimizer_state_dict"
          ∨ (lr ≠ "" ∧ s = "scheduler"))
    ∧ (∀ s, s ∈ vae_checkpoint_keys lr
        ↔ s = "epoch" ∨ s = "model_state_dict" ∨ s = "optimizer_state_dict"
          ∨ (lr ≠ "" ∧ s = "scheduler"))
    ∧ (∀ s, s ∈ sswae_dev_checkpoint_keys lr
        ↔ s = "epoch" ∨ s = "model_state_dict" ∨ s = "optimizer_main_state_dict"
          ∨ s = "optimizer_adv_state_dict"
          ∨ (lr ≠ "" ∧ (s = "scheduler_main" ∨ s = "scheduler_adv")))
    ∧ (classifier_checkpoint_keys lr).Nodup
    ∧ (vae_checkpoint_keys lr).Nodup
    ∧ (sswae_dev_checkpoint_keys lr).Nodup := by
  by_cases h : lr = ""
  · subst h
    refine ⟨?_, ?_, ?_, ?_, ?_, ?_⟩ <;>
      simp [classifier_checkpoint_keys, vae_checkpoint_keys, sswae_dev_checkpoint_keys]
  · have hl : 0 < lr.length := by
      cases lr with
      | mk data =>
        cases data with
        | nil => exact absurd rfl h
        | cons c cs => simp [String.length]
    refine ⟨?_, ?_, ?_, ?_, ?_, ?_⟩ <;>
      simp [classifier_checkpoint_keys, vae_checkpoint_keys, sswae_dev_checkpoint_keys,
        hl, h]

/-- Lookup of a Python local variable name in an environment of bound
`inc_avg` running averages; `none` models a `NameError`. -/
def lookupLocal (locals : List (String × ℝ)) (name : String) : Option ℝ :=
  (locals.find? fun p => p.1 == name).map Prod.snd

/-- The selection objective computed in the `save_best` branch:
`obj = test_loss_main.avg + self.lamb * test_loss_penalty.avg`, reading both
accumulator names from the loop's local environment. -/
def save_best_objective (locals : List (String × ℝ)) (lamb : ℝ) : Option ℝ := do
  let m ← lookupLocal locals "test_loss_main"
  let p ← lookupLocal locals "test_loss_penalty"
  pure (m + lamb * p)

/-- The `inc_avg` accumulators that `classifier_abstract.train` actually binds
before its `save_best` branch runs: only `train_loss_main` and
`test_loss_main`. -/
def classifier_train_locals (train_loss_main_avg test_loss_main_avg : ℝ) :
    List (String × ℝ) :=
  [("train_loss_main", train_loss_main_avg), ("test_loss_main", test_loss_main_avg)]

/-- The accumulators bound at the same point in `VAE_abstract.train`, which
does define `test_loss_penalty`. -/
def vae_train_locals (train_main train_penalty test_main test_penalty : ℝ) :
    List (String × ℝ) :=
  [("train_loss_main", train_main), ("train_loss_penalty", train_penalty),
   ("test_loss_main", test_main), ("test_loss_penalty", test_penalty)]

/-- C4 (refuted on the code): in `classifier_abstract.train` the `save_best`
objective reads the unbound name `test_loss_penalty`, so its evaluation fails
(Python `NameError`) for every value of the bound accumulators, while the
identical line in `VAE_abstract.train` succeeds. -/
theorem C4_classifier_save_best_name_error (tm te lamb a b c p : ℝ) :
    save_best_objective (classifier_train_locals tm te) lamb = none
    ∧ save_best_objective (vae_train_locals a b c p) lamb = some (c + lamb * p) :=
  ⟨rfl, rfl⟩

/-- A `train_info` config section, mapping keys to raw string values; a
missing key (`none`) raises `KeyError` in Python. -/
def overrideKey (get : String → Option String) (key val : String) :
    String → Option String :=
  fun k => if k = key then some val else get k

/-- Attributes assigned by `classifier_abstract.__init__` after the `super`
call (besides the loss object). -/
structure ClassifierAttrs where
  labeled_class : List ℤ
  portion : ℝ

/-- `classifier_abstract.__init__`: `labeled_class` is parsed from the
mandatory key, and `self.portion = float(cfg['train_info']['portion'])` with
the `except KeyError: self.portion = 1.0` fallback.  Python string-to-number
parsing is abstracted by the `parseFloat` / `parseIntList` parameters. -/
def classifier_abstract_init (get : String → Option String)
    (parseFloat : String → ℝ) (parseIntList : String → List ℤ) :
    Option ClassifierAttrs := do
  let lc ← get "labeled_class"
  let portion : ℝ :=
    match get "portion" with
    | some s => parseFloat s
    | none => 1.0
  pure ⟨parseIntList lc, portion⟩

/-- Attributes assigned by `SSWAE_HSIC_dev2.__init__` after the `super` call
(besides the loss objects and the `Identity` layer). -/
structure SSWAE2Attrs where
  lamb_mmd : ℝ
  lamb_hsic : ℝ
  labeled_class : List ℤ
  test_class : List ℤ
  portion : ℝ
  batch_size : ℤ

/-- `SSWAE_HSIC_dev2.__init__`: `lambda_mmd`, `lambda_hsic`, `labeled_class`,
`portion` and `batch_size` are mandatory; `test_class` falls back to the empty
list when the key is absent (`try/except` around the lookup). -/
def sswae_hsic_dev2_init (get : String → Option String)
    (parseFloat : String → ℝ) (parseIntList : String → List ℤ)
    (parseInt : String → ℤ) : Option SSWAE2Attrs := do
  let lm ← get "lambda_mmd"
  let lh ← get "lambda_hsic"
  let lc ← get "labeled_class"
  let tc : List ℤ :=
    match get "test_class" with
    | some s => parseIntList s
    | none => []
  let p ← get "portion"
  let bs ← get "batch_size"
  pure ⟨parseFloat lm, parseFloat lh, parseIntList lc, tc, parseFloat p, parseInt bs⟩

/-- C5: with `portion` absent, `classifier_abstract.__init__` succeeds with
`portion = 1.0`; with `test_class` absent, `SSWAE_HSIC_dev2.__init__` succeeds
with `test_class = []`; in both cases every other attribute equals what the
same config extended with the missing key would produce. -/
theorem C5_missing_config_key_fallbacks
    (get get2 : String → Option String)
    (pf : String → ℝ) (pil : String → List ℤ) (pint : String → ℤ)
    (lcs lms lhs ps bss v tvs : String)
    (h_portion : get "portion" = none)
    (h_lc : get "labeled_class" = some lcs)
    (h2_tc : get2 "test_class" = none)
    (h2_lm : get2 "lambda_mmd" = some lms)
    (h2_lh : get2 "lambda_hsic" = some lhs)
    (h2_lc : get2 "labeled_class" = some lcs)
    (h2_p : get2 "portion" = some ps)
    (h2_bs : get2 "batch_size" = some bss) :
    classifier_abstract_init get pf pil = some ⟨pil lcs, 1.0⟩
    ∧ classifier_abstract_init (overrideKey get "portion" v) pf pil
        = some ⟨pil lcs, pf v⟩
    ∧ sswae_hsic_dev2_init get2 pf pil pint
        = some ⟨pf lms, pf lhs, pil lcs, [], pf ps, pint bss⟩
    ∧ sswae_hsic_dev2_init (overrideKey get2 "test_class" tvs) pf pil pint
        = some ⟨pf lms, pf lhs, pil lcs, pil tvs, pf ps, pint bss⟩ := by
  have e1 : overrideKey get "portion" v "labeled_class" = some lcs := by
    rw [overrideKey, if_neg (by decide)]
    exact h_lc
  have e2 : overrideKey get "portion" v "portion" = some v := by
    rw [overrideKey, if_pos rfl]
  have f1 : overrideKey get2 "test_class" tvs "lambda_mmd" = some lms := by
    rw [overrideKey, if_neg (by decide)]
    exact h2_lm
  have f2 : overrideKey get2 "test_class" tvs "lambda_hsic" = some lhs := by
    rw [overrideKey, if_neg (by decide)]
    exact h2_lh
  have f3 : overrideKey get2 "test_class" tvs "labeled_class" = some lcs := by
    rw [overrideKey, if_neg (by decide)]
    exact h2_lc
  have f4 : overrideKey get2 "test_class" tvs "test_class" = some tvs := by
    rw [overrideKey, if_pos rfl]
  have f5 : overrideKey get2 "test_class" tvs "portion" = some ps := by
    rw [overrideKey, if_neg (by decide)]
    exact h2_p
  have f6 : overrideKey get2 "test_class" tvs "batch_size" = some bss := by
    rw [overrideKey, if_neg (by decide)]
    exact h2_bs
  refine ⟨?_, ?_, ?_, ?_⟩
  · simp [classifier_abstract_init, h_lc, h_portion]
  · simp [classifier_abstract_init, e1, e2]
  · simp [sswae_hsic_dev2_init, h2_lm, h2_lh, h2_lc, h2_tc, h2_p, h2_bs]
  · simp [sswae_hsic_dev2_init, f1, f2, f3, f4, f5, f6]

/-- Concrete config with `portion` missing, for the C5 witness. -/
def cfgNoPortion : String → Option String :=
  fun k => if k = "labeled_class" then some "0,1" else none

/-- Concrete config with `test_class` missing, for the C5 witness. -/
def cfgNoTestClass : String → Option String :=
  fun k =>
    if k = "lambda_mmd" then some "1.0"
    else if k = "lambda_hsic" then some "1.0"
    else if k = "labeled_class" then some "0,1"
    else if k = "portion" then some "1.0"
    else if k = "batch_size" then some "64"
    else none

/-- Witness for C5 at the concrete configs with the keys absent, with trivial
parsers. -/
theorem C5_missing_config_key_fallbacks_witness :
    classifier_abstract_init cfgNoPortion (fun _ => 0) (fun _ => []) = some ⟨[], 1.0⟩
    ∧ classifier_abstract_init (overrideKey cfgNoPortion "portion" "0.5")
        (fun _ => 0) (fun _ => []) = some ⟨[], 0⟩
    ∧ sswae_hsic_dev2_init cfgNoTestClass (fun _ => 0) (fun _ => []) (fun _ => 0)
        = some ⟨0, 0, [], [], 0, 0⟩
    ∧ sswae_hsic_dev2_init (overrideKey cfgNoTestClass "test_class" "9")
        (fun _ => 0) (fun _ => []) (fun _ => 0)
        = some ⟨0, 0, [], [], 0, 0⟩ :=
  C5_missing_config_key_fallbacks cfgNoPortion cfgNoTestClass
    (fun _ => 0) (fun _ => []) (fun _ => 0)
    "0,1" "1.0" "1.0" "1.0" "64" "0.5" "9"
    (by decide) (by decide) (by decide) (by decide) (by decide) (by decide)
    (by decide) (by decide)

/-- One optimizer step performed by the `SSWAE_HSIC_dev` training loop,
tagged with the objective whose gradients were used. -/
inductive TrainEvent where
  | advStep (objective : ℝ)
  | mainStep (objective : ℝ)

/-- Whether an event is a discriminator (`optimizer_adv`) step. -/
def TrainEvent.isAdv : TrainEvent → Bool
  | .advStep _ => true
  | .mainStep _ => false

/-- The model pieces that the `SSWAE_HSIC_dev.train` batch body composes:
hyperparameters read from the config plus the (abstract) tensor functions it
calls.  `sliceFrom kDim t` models `t[:, kDim:]`. -/
structure SSWAEFuns (τ : Type) where
  y_dim : ℕ
  lamb : ℝ
  lamb_mmd : ℝ
  lamb_hsic : ℝ
  generate_prior : ℕ → τ
  encode : τ → τ
  sliceFrom : ℕ → τ → τ
  decode : τ → τ
  main_loss : τ → τ → ℝ
  adv_loss : τ → τ → ℝ
  penalty_loss_mask : τ → τ → τ → ℝ × ℝ × ℝ

/-- The optimizer steps taken by one iteration of the batch loop in
`SSWAE_HSIC_dev.train`: when `lamb > 0`, first `optimizer_adv.step()` on
`obj_adv = lamb * adv_loss(prior_z, encode(x)[:, y_dim:])`, then
`optimizer_main.step()` on `obj = loss + lamb*gan + lamb_mmd*mmd +
lamb_hsic*hsic`; when `lamb <= 0`, only the main step on `obj = loss`. -/
def batchEvents {τ : Type} (M : SSWAEFuns τ) (data y valid_y : τ) (n : ℕ) :
    List TrainEvent :=
  let prior_z := M.generate_prior n
  let advPart : List TrainEvent :=
    if 0 < M.lamb then
      let fake_latent := M.sliceFrom M.y_dim (M.encode data)
      let adv := M.adv_loss prior_z fake_latent
      let obj_adv := M.lamb * adv
      [TrainEvent.advStep obj_adv]
    else []
  let fake_latent := M.encode data
  let recon := M.decode fake_latent
  let loss := M.main_loss data recon
  let obj :=
    if 0 < M.lamb then
      let p := M.penalty_loss_mask fake_latent y valid_y
      loss + M.lamb * p.1 + M.lamb_mmd * p.2.1 + M.lamb_hsic * p.2.2
    else loss
  advPart ++ [TrainEvent.mainStep obj]

/-- All optimizer steps of a whole training run over a list of batches
`(data, condition, valid_y, n)`. -/
def runEvents {τ : Type} (M : SSWAEFuns τ) (batches : List (τ × τ × τ × ℕ)) :
    List TrainEvent :=
  (batches.map fun b => batchEvents M b.1 b.2.1 b.2.2.1 b.2.2.2).flatten

/-- C2: with `lamb > 0` every batch performs the discriminator step first, on
`lamb * adv_loss(prior_z, z-part of the encoding)`, then the main step on
`loss + lamb*gan + lamb_mmd*mmd + lamb_hsic*hsic`; with `lamb = 0` the batch
performs only the main step on the reconstruction loss, and the discriminator
optimizer never steps during the whole run. -/
theorem C2_adversarial_alternation {τ : Type} (M1 M0 : SSWAEFuns τ)
    (data y valid_y : τ) (n : ℕ) (batches : List (τ × τ × τ × ℕ))
    (hpos : 0 < M1.lamb) (hzero : M0.lamb = 0) :
    batchEvents M1 data y valid_y n
      = [TrainEvent.advStep
           (M1.lamb * M1.adv_loss (M1.generate_prior n)
             (M1.sliceFrom M1.y_dim (M1.encode data))),
         TrainEvent.mainStep
           (M1.main_loss data (M1.decode (M1.encode data))
             + M1.lamb * (M1.penalty_loss_mask (M1.encode data) y valid_y).1
             + M1.lamb_mmd * (M1.penalty_loss_mask (M1.encode data) y valid_y).2.1
             + M1.lamb_hsic * (M1.penalty_loss_mask (M1.encode data) y valid_y).2.2)]
    ∧ batchEvents M0 data y valid_y n
        = [TrainEvent.mainStep (M0.main_loss data (M0.decode (M0.encode data)))]
    ∧ ∀ e ∈ runEvents M0 batches, e.isAdv = false := by
  have hnotpos : ¬ 0 < M0.lamb := by
    rw [hzero]
    exact lt_irrefl 0
  refine ⟨?_, ?_, ?_⟩
  · simp [batchEvents, hpos]
  · simp [batchEvents, hnotpos]
  · intro e he
    obtain ⟨L, hL, heL⟩ := List.mem_flatten.mp he
    obtain ⟨b, _, rfl⟩ := List.mem_map.mp hL
    have hb0 : batchEvents M0 b.1 b.2.1 b.2.2.1 b.2.2.2
        = [TrainEvent.mainStep (M0.main_loss b.1 (M0.decode (M0.encode b.1)))] := by
      simp [batchEvents, hnotpos]
    rw [hb0] at heL
    rcases List.mem_singleton.mp heL with rfl
    rfl

/-- Concrete model functions over `Unit` tensors with `lamb = 1`, for the C2
witness. -/
def sswaeFunsPos : SSWAEFuns Unit :=
  ⟨0, 1, 0, 0, fun _ => (), fun t => t, fun _ t => t, fun t => t,
   fun _ _ => 0, fun _ _ => 0, fun _ _ _ => (0, 0, 0)⟩

/-- Concrete model functions over `Unit` tensors with `lamb = 0`, for the C2
witness. -/
def sswaeFunsZero : SSWAEFuns Unit :=
  ⟨0, 0, 0, 0, fun _ => (), fun t => t, fun _ t => t, fun t => t,
   fun _ _ => 0, fun _ _ => 0, fun _ _ _ => (0, 0, 0)⟩

/-- Witness for C2 at the concrete `Unit` models and a one-batch run. -/
theorem C2_adversarial_alternation_witness :
    batchEvents sswaeFunsPos () () () 1
      = [TrainEvent.advStep
           (sswaeFunsPos.lamb * sswaeFunsPos.adv_loss (sswaeFunsPos.generate_prior 1)
             (sswaeFunsPos.sliceFrom sswaeFunsPos.y_dim (sswaeFunsPos.encode ()))),
         TrainEvent.mainStep
           (sswaeFunsPos.main_loss () (sswaeFunsPos.decode (sswaeFunsPos.encode ()))
             + sswaeFunsPos.lamb * (sswaeFunsPos.penalty_loss_mask (sswaeFunsPos.encode ()) () ()).1
             + sswaeFunsPos.lamb_mmd * (sswaeFunsPos.penalty_loss_mask (sswaeFunsPos.encode ()) () ()).2.1
             + sswaeFunsPos.lamb_hsic * (sswaeFunsPos.penalty_loss_mask (sswaeFunsPos.encode ()) () ()).2.2)]
    ∧ batchEvents sswaeFunsZero () () () 1
        = [TrainEvent.mainStep (sswaeFunsZero.main_loss () (sswaeFunsZero.decode (sswaeFunsZero.encode ())))]
    ∧ ∀ e ∈ runEvents sswaeFunsZero [((), (), (), 1)], e.isAdv = false :=
  C2_adversarial_alternation sswaeFunsPos sswaeFunsZero () () () 1 [((), (), (), 1)]
    (by norm_num [sswaeFunsPos]) (by norm_num [sswaeFunsZero])
